import Mathlib

/-!
Shallow embedding of the miniEVM interpreter (src/evm.ts).

Modelling decisions, stated once here:

* The interpreter stores JavaScript numbers on its stack.  We model a
  JavaScript number as an exact rational (`ℚ`) or the special value NaN
  (`JSVal.nan`).  JavaScript number arithmetic is exact on values of
  magnitude below 2^53 (and on exactly representable dyadic rationals such
  as 5 / 2); above 2^53 the program rounds to the nearest double and the
  exact rationals are NOT faithful.  Every theorem in this file therefore
  confines the arithmetic it evaluates to the exact range: the concrete
  runs use small values, and the truncated-push theorem quantifies over at
  most 6 operand bytes (values below 2^48).  No theorem here quantifies
  over inputs on which the program would round.  Statements that do not
  evaluate arithmetic at all (stack depth, dispatch, control flow,
  termination, the `=== 0` guards) are unaffected by rounding.
* The JavaScript remainder operator `x % y` is truncated remainder:
  `x - y * trunc(x / y)`, keeping the sign of the dividend (`qRem` below).
  `x % 0` and any operation with a NaN operand yield NaN.
* The JavaScript division `x / y` with `y ≠ 0` is modelled as exact
  rational division (the interpreter only divides after checking the
  divisor against 0).
* `parseInt(hex, 16)` applied to the hex rendering of a byte sequence is
  the big-endian value of the bytes (`bytesBE`); `parseInt("")` is NaN.
* The bytecode is a list of byte values (entries of a `Uint8Array`, hence
  below 256 in reality).  The stack is a Lean list whose HEAD is the top
  of the stack (the last element of the JavaScript array).
* A thrown `Error("Stack underflow")` is modelled as
  `Except.error Err.stackUnderflow`; it is the only throw in the source.
* The `while (pc < code.length)` loop of `run` is modelled with a fuel
  parameter (`runLoop`); `run` supplies fuel `code.length + 1`, which is
  proved sufficient (claim C10), so `run` equals the unbounded loop.
-/

namespace MiniEVM

/-- Value of a JavaScript number: an exact rational, or NaN. -/
inductive JSVal where
  | num (q : ℚ)
  | nan
deriving DecidableEq, Repr

/-- Constant `2 ** 256` from the source. -/
def two256 : ℚ := 2 ^ 256

/-- Truncation toward zero, as used by the JavaScript remainder operator. -/
def jsTrunc (q : ℚ) : ℤ := if 0 ≤ q then ⌊q⌋ else ⌈q⌉

/-- JavaScript `x % y` for `y ≠ 0`: truncated remainder, sign of the dividend. -/
def qRem (x y : ℚ) : ℚ := x - y * (jsTrunc (x / y) : ℚ)

/-- JavaScript `+` on numbers (NaN absorbing). -/
def jadd : JSVal → JSVal → JSVal
  | .num a, .num b => .num (a + b)
  | _, _ => .nan

/-- JavaScript `-` on numbers (NaN absorbing). -/
def jsub : JSVal → JSVal → JSVal
  | .num a, .num b => .num (a - b)
  | _, _ => .nan

/-- JavaScript `*` on numbers (NaN absorbing). -/
def jmul : JSVal → JSVal → JSVal
  | .num a, .num b => .num (a * b)
  | _, _ => .nan

/-- JavaScript `/` on numbers; only used by the interpreter with a divisor
already checked to be nonzero, so the zero-divisor case is irrelevant
(Lean rational division then returns 0). -/
def jdiv : JSVal → JSVal → JSVal
  | .num a, .num b => .num (a / b)
  | _, _ => .nan

/-- JavaScript `%` on numbers: NaN for a zero modulus or NaN operands. -/
def jrem : JSVal → JSVal → JSVal
  | .num a, .num b => if b = 0 then .nan else .num (qRem a b)
  | _, _ => .nan

/- Word-level operations: the computation each arithmetic or comparison
method of class EVM performs on the two popped items (item1 = first
popped, item2 = second popped). -/
namespace Word

/-- Body of `EVM.add`: `(item1 + item2) % 2 ** 256`. -/
def add (item1 item2 : JSVal) : JSVal := jrem (jadd item1 item2) (.num two256)

/-- Body of `EVM.mul`: `(item1 * item2) % 2 ** 256`. -/
def mul (item1 item2 : JSVal) : JSVal := jrem (jmul item1 item2) (.num two256)

/-- Body of `EVM.sub`: `(item1 - item2) % 2 ** 256`. -/
def sub (item1 item2 : JSVal) : JSVal := jrem (jsub item1 item2) (.num two256)

/-- Body of `EVM.div`: push 0 when `item2 === 0`, else `(item1 / item2) % 2 ** 256`. -/
def div (item1 item2 : JSVal) : JSVal :=
  if item2 = .num 0 then .num 0 else jrem (jdiv item1 item2) (.num two256)

/-- Body of `EVM.mod`: `item2 !== 0 ? (item1 % item2) % 2 ** 256 : 0`. -/
def mod (item1 item2 : JSVal) : JSVal :=
  if item2 ≠ .num 0 then jrem (jrem item1 item2) (.num two256) else .num 0

/-- Body of `EVM.lt`: `item1 < item2 ? 1 : 0` (NaN comparisons are false). -/
def lt (item1 item2 : JSVal) : JSVal :=
  match item1, item2 with
  | .num a, .num b => if a < b then .num 1 else .num 0
  | _, _ => .num 0

/-- Body of `EVM.gt`: `item1 > item2 ? 1 : 0` (NaN comparisons are false). -/
def gt (item1 item2 : JSVal) : JSVal :=
  match item1, item2 with
  | .num a, .num b => if b < a then .num 1 else .num 0
  | _, _ => .num 0

/-- Body of `EVM.eq`: `item2 === item1 ? 1 : 0` (NaN equals nothing). -/
def eq (item1 item2 : JSVal) : JSVal :=
  match item1, item2 with
  | .num a, .num b => if b = a then .num 1 else .num 0
  | _, _ => .num 0

end Word

/-- Opcode constants from the top of src/evm.ts. -/
def PUSH0 : ℕ := 0x5f

def PUSH1 : ℕ := 0x60

def PUSH32 : ℕ := 0x7f

def POP : ℕ := 0x50

def ADD : ℕ := 0x01

def MUL : ℕ := 0x02

def SUB : ℕ := 0x03

def DIV : ℕ := 0x04

def MOD : ℕ := 0x06

def LT : ℕ := 0x10

def GT : ℕ := 0x11

def EQ : ℕ := 0x14

/-- Thrown errors of the source; `Error("Stack underflow")` is the only one. -/
inductive Err where
  | stackUnderflow
deriving DecidableEq, Repr

/-- Equality of run outcomes is decidable (needed to state and check
concrete executions). -/
instance {ε α : Type} [DecidableEq ε] [DecidableEq α] : DecidableEq (Except ε α) := fun a b =>
  match a, b with
  | .ok x, .ok y =>
    if h : x = y then .isTrue (by rw [h]) else .isFalse (by intro hc; cases hc; exact h rfl)
  | .error x, .error y =>
    if h : x = y then .isTrue (by rw [h]) else .isFalse (by intro hc; cases hc; exact h rfl)
  | .ok _, .error _ => .isFalse (by intro hc; cases hc)
  | .error _, .ok _ => .isFalse (by intro hc; cases hc)

namespace EVM

/-- Mutable fields of class EVM: the (immutable) code, the program counter
and the stack (head = top). -/
structure State where
  code : List ℕ
  pc : ℕ
  stack : List JSVal
deriving DecidableEq, Repr

/-- Method `nextInstruction`: read the byte at the program counter and
advance it by one. -/
def nextInstruction (s : State) : ℕ × State :=
  (s.code.getD s.pc 0, { s with pc := s.pc + 1 })

/-- Big-endian value of a byte list: what `parseInt` returns on the joined
two-digit hex renderings of the bytes (exact below 2^53). -/
def bytesBE (data : List ℕ) : ℕ := data.foldl (fun acc b => acc * 256 + b) 0

/-- Value pushed by `push`: `parseInt` of the hex string of the sliced
bytes; `parseInt("", 16)` is NaN. -/
def parsePush (data : List ℕ) : JSVal :=
  if data = [] then .nan else .num (bytesBE data)

/-- Method `push(size)`: slice `size` bytes at the program counter (the
slice clamps at the end of the code), parse them, push the value and
advance the program counter by `size`. -/
def push (s : State) (size : ℕ) : State :=
  let data := (s.code.drop s.pc).take size
  { s with stack := parsePush data :: s.stack, pc := s.pc + size }

/-- Method `pop`: throw on an empty stack, else drop the top element. -/
def pop : List JSVal → Except Err (List JSVal)
  | [] => .error .stackUnderflow
  | _ :: rest => .ok rest

/-- Method `add`: throw unless two items are present, pop both, push the sum
reduced by `% 2 ** 256`. -/
def add : List JSVal → Except Err (List JSVal)
  | item1 :: item2 :: rest => .ok (Word.add item1 item2 :: rest)
  | _ => .error .stackUnderflow

/-- Method `mul`, same shape as `add`. -/
def mul : List JSVal → Except Err (List JSVal)
  | item1 :: item2 :: rest => .ok (Word.mul item1 item2 :: rest)
  | _ => .error .stackUnderflow

/-- Method `sub`, same shape as `add`. -/
def sub : List JSVal → Except Err (List JSVal)
  | item1 :: item2 :: rest => .ok (Word.sub item1 item2 :: rest)
  | _ => .error .stackUnderflow

/-- Method `div`, same shape as `add` with the zero-divisor branch. -/
def div : List JSVal → Except Err (List JSVal)
  | item1 :: item2 :: rest => .ok (Word.div item1 item2 :: rest)
  | _ => .error .stackUnderflow

/-- Method `mod`, same shape as `add` with the zero-modulus branch. -/
def mod : List JSVal → Except Err (List JSVal)
  | item1 :: item2 :: rest => .ok (Word.mod item1 item2 :: rest)
  | _ => .error .stackUnderflow

/-- Method `lt`. -/
def lt : List JSVal → Except Err (List JSVal)
  | item1 :: item2 :: rest => .ok (Word.lt item1 item2 :: rest)
  | _ => .error .stackUnderflow

/-- Method `gt`. -/
def gt : List JSVal → Except Err (List JSVal)
  | item1 :: item2 :: rest => .ok (Word.gt item1 item2 :: rest)
  | _ => .error .stackUnderflow

/-- Method `eq`. -/
def eq : List JSVal → Except Err (List JSVal)
  | item1 :: item2 :: rest => .ok (Word.eq item1 item2 :: rest)
  | _ => .error .stackUnderflow

/-- Result of one iteration of the while loop in `run`: either a new state,
or termination with the final outcome (an uncaught throw). -/
inductive StepRes where
  | cont (s : State)
  | done (r : Except Err (List JSVal))
deriving DecidableEq, Repr

/-- Lift a method returning `Except` into the loop: a throw terminates the
run, a normal return continues with the updated stack. -/
def bindStack (s : State) (r : Except Err (List JSVal)) : StepRes :=
  match r with
  | .ok st2 => .cont { s with stack := st2 }
  | .error e => .done (.error e)

/-- Body of the while loop of `run`: fetch the opcode, dispatch through the
if/else chain of the source.  A byte matching no branch falls through the
chain, leaving the state unchanged apart from the already-advanced program
counter. -/
def step (s : State) : StepRes :=
  match nextInstruction s with
  | (op, s1) =>
    if PUSH1 ≤ op ∧ op ≤ PUSH32 then .cont (push s1 (op - PUSH1 + 1))
    else if op = PUSH0 then .cont { s1 with stack := .num 0 :: s1.stack }
    else if op = POP then bindStack s1 (pop s1.stack)
    else if op = ADD then bindStack s1 (add s1.stack)
    else if op = MUL then bindStack s1 (mul s1.stack)
    else if op = SUB then bindStack s1 (sub s1.stack)
    else if op = DIV then bindStack s1 (div s1.stack)
    else if op = MOD then bindStack s1 (mod s1.stack)
    else if op = LT then bindStack s1 (lt s1.stack)
    else if op = GT then bindStack s1 (gt s1.stack)
    else if op = EQ then bindStack s1 (eq s1.stack)
    else .cont s1

/-- Fuel-indexed while loop: `while (pc < code.length) { one step }`, then
report the final stack.  The fuel only bounds the iteration count; claim
C10 proves that `code.length + 1` units never run out. -/
def runLoop : ℕ → State → Except Err (List JSVal)
  | 0, s => .ok s.stack
  | fuel + 1, s =>
    if s.pc < s.code.length then
      match step s with
      | .cont s2 => runLoop fuel s2
      | .done r => r
    else .ok s.stack

/-- Method `run`: the while loop from the initial state; the final stack is
the observable result (the source logs it), a propagated throw the failure. -/
def run (s : State) : Except Err (List JSVal) := runLoop (s.code.length + 1) s

/-- Construction plus run: `new EVM(code)` starts with pc 0 and an empty
stack. -/
def runCode (code : List ℕ) : Except Err (List JSVal) := run ⟨code, 0, []⟩

/-- Opcode bytes handled by some branch of the dispatch chain in `run`; any
other byte falls through the chain. -/
def recognizedOp (op : ℕ) : Prop :=
  (PUSH1 ≤ op ∧ op ≤ PUSH32) ∨ op = PUSH0 ∨ op = POP ∨ op = ADD ∨ op = MUL ∨
    op = SUB ∨ op = DIV ∨ op = MOD ∨ op = LT ∨ op = GT ∨ op = EQ

instance (op : ℕ) : Decidable (recognizedOp op) := by
  unfold recognizedOp
  infer_instance

end EVM

/-!
Helper lemmas about the JavaScript remainder and the word operations.
-/

lemma two256_pos : (0 : ℚ) < two256 := by norm_num [two256]

lemma two256_ne_zero : two256 ≠ 0 := ne_of_gt two256_pos

/-- Truncation of a proper fraction is zero. -/
lemma jsTrunc_eq_zero {q : ℚ} (h1 : -1 < q) (h2 : q < 1) : jsTrunc q = 0 := by
  unfold jsTrunc
  rcases le_or_lt 0 q with h | h
  · rw [if_pos h, Int.floor_eq_zero_iff]
    exact ⟨h, h2⟩
  · rw [if_neg (not_le.mpr h), Int.ceil_eq_zero_iff]
    exact ⟨h1, le_of_lt h⟩

/-- A value of magnitude below `2 ** 256` is its own remainder: the
JavaScript `% 2 ** 256` only acts outside `(-2^256, 2^256)`. -/
lemma qRem_small {x : ℚ} (h1 : -two256 < x) (h2 : x < two256) : qRem x two256 = x := by
  unfold qRem
  rw [jsTrunc_eq_zero]
  · push_cast
    ring
  · rw [lt_div_iff₀ two256_pos]
    linarith
  · exact (div_lt_one two256_pos).mpr h2

/-- Remainder by the nonzero constant `2 ** 256` on plain numbers. -/
lemma jrem_two256 (x : ℚ) : jrem (.num x) (.num two256) = .num (qRem x two256) := by
  simp [jrem, two256_ne_zero]

lemma word_add_num {a b : ℚ} (h1 : -two256 < a + b) (h2 : a + b < two256) :
    Word.add (.num a) (.num b) = .num (a + b) := by
  rw [Word.add, jadd, jrem_two256, qRem_small h1 h2]

lemma word_sub_num {a b : ℚ} (h1 : -two256 < a - b) (h2 : a - b < two256) :
    Word.sub (.num a) (.num b) = .num (a - b) := by
  rw [Word.sub, jsub, jrem_two256, qRem_small h1 h2]

lemma word_mul_num {a b : ℚ} (h1 : -two256 < a * b) (h2 : a * b < two256) :
    Word.mul (.num a) (.num b) = .num (a * b) := by
  rw [Word.mul, jmul, jrem_two256, qRem_small h1 h2]

lemma word_div_num {a b : ℚ} (hb : b ≠ 0) (h1 : -two256 < a / b) (h2 : a / b < two256) :
    Word.div (.num a) (.num b) = .num (a / b) := by
  rw [Word.div, if_neg (by simp [hb]), jdiv, jrem_two256, qRem_small h1 h2]

lemma word_div_zero (a : JSVal) : Word.div a (.num 0) = .num 0 := by
  rw [Word.div, if_pos rfl]

lemma word_mod_zero (a : JSVal) : Word.mod a (.num 0) = .num 0 := by
  rw [Word.mod, if_neg]
  simp

/-!
Helper lemmas about the run loop.
-/

namespace EVM

lemma runLoop_succ (fuel : ℕ) (s : State) :
    runLoop (fuel + 1) s =
      if s.pc < s.code.length then
        match step s with
        | .cont s2 => runLoop fuel s2
        | .done r => r
      else .ok s.stack := rfl

lemma runLoop_of_ge {fuel : ℕ} {s : State} (h : s.code.length ≤ s.pc) :
    runLoop (fuel + 1) s = .ok s.stack := by
  rw [runLoop_succ, if_neg (not_lt.mpr h)]

lemma runLoop_step_cont {fuel : ℕ} {s s2 : State} (hlt : s.pc < s.code.length)
    (h : step s = .cont s2) : runLoop (fuel + 1) s = runLoop fuel s2 := by
  rw [runLoop_succ, if_pos hlt, h]

lemma runLoop_step_done {fuel : ℕ} {s : State} {r : Except Err (List JSVal)}
    (hlt : s.pc < s.code.length) (h : step s = .done r) : runLoop (fuel + 1) s = r := by
  rw [runLoop_succ, if_pos hlt, h]

/-- Dispatch: a byte in the push range runs the push method with the decoded
operand size. -/
lemma step_push {s : State} (h1 : PUSH1 ≤ s.code.getD s.pc 0)
    (h2 : s.code.getD s.pc 0 ≤ PUSH32) :
    step s = .cont (push { s with pc := s.pc + 1 } (s.code.getD s.pc 0 - PUSH1 + 1)) := by
  simp only [step, nextInstruction]
  rw [if_pos (⟨h1, h2⟩ : PUSH1 ≤ s.code.getD s.pc 0 ∧ s.code.getD s.pc 0 ≤ PUSH32)]

/-- Dispatch: the PUSH0 byte pushes the literal 0. -/
lemma step_push0 {s : State} (h : s.code.getD s.pc 0 = PUSH0) :
    step s = .cont { s with pc := s.pc + 1, stack := .num 0 :: s.stack } := by
  simp only [step, nextInstruction]
  rw [if_neg (by rw [h]; decide), if_pos h]

/-- Dispatch: the POP byte runs the pop method. -/
lemma step_pop {s : State} (h : s.code.getD s.pc 0 = POP) :
    step s = bindStack { s with pc := s.pc + 1 } (pop s.stack) := by
  simp only [step, nextInstruction]
  rw [if_neg (by rw [h]; decide), if_neg (by rw [h]; decide), if_pos h]

/-- Dispatch: the ADD byte runs the add method. -/
lemma step_add {s : State} (h : s.code.getD s.pc 0 = ADD) :
    step s = bindStack { s with pc := s.pc + 1 } (add s.stack) := by
  simp only [step, nextInstruction]
  rw [if_neg (by rw [h]; decide), if_neg (by rw [h]; decide), if_neg (by rw [h]; decide), if_pos h]

/-- Dispatch: the MUL byte runs the mul method. -/
lemma step_mul {s : State} (h : s.code.getD s.pc 0 = MUL) :
    step s = bindStack { s with pc := s.pc + 1 } (mul s.stack) := by
  simp only [step, nextInstruction]
  rw [if_neg (by rw [h]; decide), if_neg (by rw [h]; decide), if_neg (by rw [h]; decide), if_neg (by rw [h]; decide), if_pos h]

/-- Dispatch: the SUB byte runs the sub method. -/
lemma step_sub {s : State} (h : s.code.getD s.pc 0 = SUB) :
    step s = bindStack { s with pc := s.pc + 1 } (sub s.stack) := by
  simp only [step, nextInstruction]
  rw [if_neg (by rw [h]; decide), if_neg (by rw [h]; decide), if_neg (by rw [h]; decide), if_neg (by rw [h]; decide), if_neg (by rw [h]; decide), if_pos h]

/-- Dispatch: the DIV byte runs the div method. -/
lemma step_div {s : State} (h : s.code.getD s.pc 0 = DIV) :
    step s = bindStack { s with pc := s.pc + 1 } (div s.stack) := by
  simp only [step, nextInstruction]
  rw [if_neg (by rw [h]; decide), if_neg (by rw [h]; decide), if_neg (by rw [h]; decide), if_neg (by rw [h]; decide), if_neg (by rw [h]; decide), if_neg (by rw [h]; decide), if_pos h]

/-- Dispatch: the MOD byte runs the mod method. -/
lemma step_mod {s : State} (h : s.code.getD s.pc 0 = MOD) :
    step s = bindStack { s with pc := s.pc + 1 } (mod s.stack) := by
  simp only [step, nextInstruction]
  rw [if_neg (by rw [h]; decide), if_neg (by rw [h]; decide), if_neg (by rw [h]; decide), if_neg (by rw [h]; decide), if_neg (by rw [h]; decide), if_neg (by rw [h]; decide), if_neg (by rw [h]; decide), if_pos h]

/-- Dispatch: the LT byte runs the lt method. -/
lemma step_lt {s : State} (h : s.code.getD s.pc 0 = LT) :
    step s = bindStack { s with pc := s.pc + 1 } (lt s.stack) := by
  simp only [step, nextInstruction]
  rw [if_neg (by rw [h]; decide), if_neg (by rw [h]; decide), if_neg (by rw [h]; decide), if_neg (by rw [h]; decide), if_neg (by rw [h]; decide), if_neg (by rw [h]; decide), if_neg (by rw [h]; decide), if_neg (by rw [h]; decide), if_pos h]

/-- Dispatch: the GT byte runs the gt method. -/
lemma step_gt {s : State} (h : s.code.getD s.pc 0 = GT) :
    step s = bindStack { s with pc := s.pc + 1 } (gt s.stack) := by
  simp only [step, nextInstruction]
  rw [if_neg (by rw [h]; decide), if_neg (by rw [h]; decide), if_neg (by rw [h]; decide), if_neg (by rw [h]; decide), if_neg (by rw [h]; decide), if_neg (by rw [h]; decide), if_neg (by rw [h]; decide), if_neg (by rw [h]; decide), if_neg (by rw [h]; decide), if_pos h]

/-- Dispatch: the EQ byte runs the eq method. -/
lemma step_eq {s : State} (h : s.code.getD s.pc 0 = EQ) :
    step s = bindStack { s with pc := s.pc + 1 } (eq s.stack) := by
  simp only [step, nextInstruction]
  rw [if_neg (by rw [h]; decide), if_neg (by rw [h]; decide), if_neg (by rw [h]; decide), if_neg (by rw [h]; decide), if_neg (by rw [h]; decide), if_neg (by rw [h]; decide), if_neg (by rw [h]; decide), if_neg (by rw [h]; decide), if_neg (by rw [h]; decide), if_neg (by rw [h]; decide), if_pos h]

/-- Dispatch: a byte matching no branch of the chain leaves everything but
the program counter unchanged. -/
lemma step_skip {s : State} (h : ¬ recognizedOp (s.code.getD s.pc 0)) :
    step s = .cont { s with pc := s.pc + 1 } := by
  rw [recognizedOp] at h
  simp only [not_or] at h
  obtain ⟨hp, h0, h1, h2, h3, h4, h5, h6, h7, h8, h9⟩ := h
  simp only [step, nextInstruction]
  rw [if_neg hp, if_neg h0, if_neg h1, if_neg h2, if_neg h3, if_neg h4, if_neg h5,
    if_neg h6, if_neg h7, if_neg h8, if_neg h9]

/-- A continuing bindStack keeps the code and program counter of the state
it decorates. -/
lemma bindStack_cont_inv {s1 s2 : State} {r : Except Err (List JSVal)}
    (h : bindStack s1 r = .cont s2) : s2.code = s1.code ∧ s2.pc = s1.pc := by
  cases r with
  | ok st2 =>
    simp only [bindStack] at h
    cases h
    exact ⟨rfl, rfl⟩
  | error e =>
    simp only [bindStack] at h
    cases h

/-- One loop iteration keeps the code and advances the program counter by at
least one byte: the opcode fetch adds 1, a push adds its operand size on
top of that. -/
lemma step_cont_inv {s s2 : State} (h : step s = .cont s2) :
    s2.code = s.code ∧ s.pc + 1 ≤ s2.pc := by
  by_cases hp : PUSH1 ≤ s.code.getD s.pc 0 ∧ s.code.getD s.pc 0 ≤ PUSH32
  · rw [step_push hp.1 hp.2] at h
    cases h
    exact ⟨rfl, Nat.le_add_right _ _⟩
  by_cases h0 : s.code.getD s.pc 0 = PUSH0
  · rw [step_push0 h0] at h
    cases h
    exact ⟨rfl, Nat.le_refl _⟩
  by_cases hPop : s.code.getD s.pc 0 = POP
  · rw [step_pop hPop] at h
    obtain ⟨hc, hq⟩ := bindStack_cont_inv h
    exact ⟨hc, by rw [hq]⟩
  by_cases hAdd : s.code.getD s.pc 0 = ADD
  · rw [step_add hAdd] at h
    obtain ⟨hc, hq⟩ := bindStack_cont_inv h
    exact ⟨hc, by rw [hq]⟩
  by_cases hMul : s.code.getD s.pc 0 = MUL
  · rw [step_mul hMul] at h
    obtain ⟨hc, hq⟩ := bindStack_cont_inv h
    exact ⟨hc, by rw [hq]⟩
  by_cases hSub : s.code.getD s.pc 0 = SUB
  · rw [step_sub hSub] at h
    obtain ⟨hc, hq⟩ := bindStack_cont_inv h
    exact ⟨hc, by rw [hq]⟩
  by_cases hDiv : s.code.getD s.pc 0 = DIV
  · rw [step_div hDiv] at h
    obtain ⟨hc, hq⟩ := bindStack_cont_inv h
    exact ⟨hc, by rw [hq]⟩
  by_cases hMod : s.code.getD s.pc 0 = MOD
  · rw [step_mod hMod] at h
    obtain ⟨hc, hq⟩ := bindStack_cont_inv h
    exact ⟨hc, by rw [hq]⟩
  by_cases hLt : s.code.getD s.pc 0 = LT
  · rw [step_lt hLt] at h
    obtain ⟨hc, hq⟩ := bindStack_cont_inv h
    exact ⟨hc, by rw [hq]⟩
  by_cases hGt : s.code.getD s.pc 0 = GT
  · rw [step_gt hGt] at h
    obtain ⟨hc, hq⟩ := bindStack_cont_inv h
    exact ⟨hc, by rw [hq]⟩
  by_cases hEq : s.code.getD s.pc 0 = EQ
  · rw [step_eq hEq] at h
    obtain ⟨hc, hq⟩ := bindStack_cont_inv h
    exact ⟨hc, by rw [hq]⟩
  have hnr : ¬ recognizedOp (s.code.getD s.pc 0) := by
    rw [recognizedOp]
    simp only [not_or]
    exact ⟨hp, h0, hPop, hAdd, hMul, hSub, hDiv, hMod, hLt, hGt, hEq⟩
  rw [step_skip hnr] at h
  cases h
  exact ⟨rfl, Nat.le_refl _⟩

/-- Fuel irrelevance: any two fuel amounts above the remaining code length
give the same outcome, because each iteration advances the program counter
and the loop stops at the end of the code.  This is the termination of the
while loop. -/
lemma runLoop_congr : ∀ (n : ℕ) (s : State) (m₁ m₂ : ℕ),
    s.code.length - s.pc < n → n ≤ m₁ → n ≤ m₂ → runLoop m₁ s = runLoop m₂ s := by
  intro n
  induction n with
  | zero => omega
  | succ n ih =>
    intro s m₁ m₂ h hm₁ hm₂
    obtain ⟨a, rfl⟩ : ∃ a, m₁ = a + 1 := ⟨m₁ - 1, by omega⟩
    obtain ⟨b, rfl⟩ : ∃ b, m₂ = b + 1 := ⟨m₂ - 1, by omega⟩
    rcases lt_or_ge s.pc s.code.length with hlt | hge
    · cases hstep : step s with
      | cont s2 =>
        rw [runLoop_step_cont hlt hstep, runLoop_step_cont hlt hstep]
        obtain ⟨hcode, hpc⟩ := step_cont_inv hstep
        exact ih s2 a b (by rw [hcode]; omega) (by omega) (by omega)
      | done r => rw [runLoop_step_done hlt hstep, runLoop_step_done hlt hstep]
    · rw [runLoop_of_ge hge, runLoop_of_ge hge]

end EVM

/-!
Claim theorems.
-/

open EVM

/-- C1: the engine run on bytecode 60 01 60 01 01 (push 1, push 1, add)
halts successfully with final stack [2], and run on 60 02 60 03 03
(push 2, push 3, sub) halts successfully with final stack [1]; in the
subtraction the first-popped (topmost) value 3 is the minuend and the
second-popped value 2 the subtrahend. -/
theorem c1_add_and_sub_programs :
    runCode [0x60, 0x01, 0x60, 0x01, 0x01] = .ok [.num 2] ∧
    runCode [0x60, 0x02, 0x60, 0x03, 0x03] = .ok [.num 1] ∧
    Word.sub (.num 3) (.num 2) = .num 1 := by
  refine ⟨?_, ?_, ?_⟩
  · norm_num [runCode, run, runLoop, step, nextInstruction, push, parsePush, bytesBE,
      bindStack, pop, add, mul, sub, div, mod, lt, gt, eq,
      PUSH0, PUSH1, PUSH32, POP, ADD, MUL, SUB, DIV, MOD, LT, GT, EQ,
      word_add_num, two256]
  · norm_num [runCode, run, runLoop, step, nextInstruction, push, parsePush, bytesBE,
      bindStack, pop, add, mul, sub, div, mod, lt, gt, eq,
      PUSH0, PUSH1, PUSH32, POP, ADD, MUL, SUB, DIV, MOD, LT, GT, EQ,
      word_sub_num, two256]
  · rw [word_sub_num (by norm_num [two256]) (by norm_num [two256])]
    norm_num

/-- C2: the claim says sub(2, 3) (first-popped 2, second-popped 3) wraps to
(2 - 3) mod 2^256 = 2^256 - 1, never a signed negative.  The code instead
leaves the signed negative -1 on the stack: the JavaScript remainder
operator keeps the sign of its dividend, so (2 - 3) % 2^256 = -1, which
differs from 2^256 - 1.  The bytecode 60 03 60 02 03 exercises it
end to end. -/
theorem c2_sub_negative_result :
    Word.sub (.num 2) (.num 3) = .num (-1) ∧
    JSVal.num (-1) ≠ .num (two256 - 1) ∧
    runCode [0x60, 0x03, 0x60, 0x02, 0x03] = .ok [.num (-1)] := by
  refine ⟨?_, ?_, ?_⟩
  · rw [word_sub_num (by norm_num [two256]) (by norm_num [two256])]
    norm_num
  · simp only [ne_eq, JSVal.num.injEq]
    norm_num [two256]
  · norm_num [runCode, run, runLoop, step, nextInstruction, push, parsePush, bytesBE,
      bindStack, pop, add, mul, sub, div, mod, lt, gt, eq,
      PUSH0, PUSH1, PUSH32, POP, ADD, MUL, SUB, DIV, MOD, LT, GT, EQ,
      word_sub_num, two256]

/-- C3: the claim says div(5, 2) (first-popped dividend 5, second-popped
divisor 2) pushes floor(5 / 2) = 2, an integer.  The code instead pushes
the JavaScript quotient 5 / 2 = 2.5, which is equal to no integer at all;
the bytecode 60 02 60 05 04 exercises it end to end. -/
theorem c3_div_fractional_result :
    Word.div (.num 5) (.num 2) = .num (5 / 2) ∧
    (∀ z : ℤ, ((5 : ℚ) / 2) ≠ (z : ℚ)) ∧
    runCode [0x60, 0x02, 0x60, 0x05, 0x04] = .ok [.num (5 / 2)] := by
  refine ⟨?_, ?_, ?_⟩
  · rw [word_div_num (by norm_num) (by norm_num [two256]) (by norm_num [two256])]
  · intro z hz
    rw [div_eq_iff (by norm_num : (2 : ℚ) ≠ 0)] at hz
    have hint : (5 : ℤ) = z * 2 := by exact_mod_cast hz
    omega
  · norm_num [runCode, run, runLoop, step, nextInstruction, push, parsePush, bytesBE,
      bindStack, pop, add, mul, sub, div, mod, lt, gt, eq,
      PUSH0, PUSH1, PUSH32, POP, ADD, MUL, SUB, DIV, MOD, LT, GT, EQ,
      word_div_num, two256]

/-- C4: div(a, 0) = 0 and mod(a, 0) = 0 for every value a, and the
arithmetic methods never fail on a stack of depth at least 2; the only
error an arithmetic opcode can produce is the stack-depth violation
(thrown on depth below 2). -/
theorem c4_div_mod_zero_no_arith_errors :
    (∀ a : JSVal, Word.div a (.num 0) = .num 0 ∧ Word.mod a (.num 0) = .num 0) ∧
    (∀ st : List JSVal, 2 ≤ st.length →
      (∃ r, add st = .ok r) ∧ (∃ r, mul st = .ok r) ∧ (∃ r, sub st = .ok r) ∧
      (∃ r, div st = .ok r) ∧ (∃ r, mod st = .ok r)) ∧
    (∀ (st : List JSVal) (e : Err),
      (add st = .error e ∨ mul st = .error e ∨ sub st = .error e ∨
        div st = .error e ∨ mod st = .error e) →
      e = .stackUnderflow ∧ st.length < 2) := by
  refine ⟨fun a => ⟨word_div_zero a, word_mod_zero a⟩, ?_, ?_⟩
  · intro st h
    match st with
    | [] => simp at h
    | [a] => simp at h
    | a :: b :: rest => exact ⟨⟨_, rfl⟩, ⟨_, rfl⟩, ⟨_, rfl⟩, ⟨_, rfl⟩, ⟨_, rfl⟩⟩
  · intro st e h
    refine ⟨by cases e; rfl, ?_⟩
    match st with
    | [] => rw [List.length_nil]; omega
    | [a] => rw [List.length_singleton]; omega
    | a :: b :: rest =>
      rcases h with h | h | h | h | h <;> simp [add, mul, sub, div, mod] at h

/-- C4 witness: div by zero at 7, a successful add on a 2-deep stack, and
the underflow characterisation at the empty stack. -/
theorem c4_div_mod_zero_no_arith_errors_witness :
    Word.div (.num 7) (.num 0) = .num 0 ∧ (∃ r, add [.num 1, .num 2] = .ok r) ∧
    ((.stackUnderflow : Err) = .stackUnderflow ∧ ([] : List JSVal).length < 2) :=
  ⟨(c4_div_mod_zero_no_arith_errors.1 (.num 7)).1,
    (c4_div_mod_zero_no_arith_errors.2.1 [.num 1, .num 2] (by norm_num)).1,
    c4_div_mod_zero_no_arith_errors.2.2 [] .stackUnderflow (Or.inl rfl)⟩

/-- C5 counterexample: the bytecode 61 01 is a PUSH2 whose 2 operand bytes
run past the end (only 01 is available).  Right-padding with zero, as the
claim states, would push 0x0100 = 256; the code pushes 1. -/
theorem c5_push_truncated_counterexample :
    run ⟨[0x61, 0x01], 0, []⟩ = .ok [.num 1] ∧ JSVal.num 1 ≠ .num 256 := by
  constructor
  · norm_num [run, runLoop, step, nextInstruction, push, parsePush, bytesBE,
      bindStack, PUSH0, PUSH1, PUSH32, POP, ADD, MUL, SUB, DIV, MOD, LT, GT, EQ]
  · simp only [ne_eq, JSVal.num.injEq]
    norm_num

/-- C5 amended: when the N operand bytes of a PUSH-N (opcode 0x5f + N,
N = 1..32) run past the end of the bytecode, the decoder reads only the
bytes actually available and interprets those as a big-endian value: the
missing bytes are dropped from the low-order end, not zero-filled on the
right.  When at most 6 bytes are available the pushed value is exactly
their big-endian integer (below 2^48, where JavaScript doubles are exact;
with 7 or more available bytes parseInt returns the nearest double to
that integer, outside this embedding).  When no operand byte is available
at all the pushed value is NaN (parseInt of an empty string).  The
program counter advances by N in every case. -/
theorem c5_push_truncated_amended :
    (∀ (s : State) (size : ℕ), (push s size).pc = s.pc + size) ∧
    (∀ (size : ℕ) (bs : List ℕ), 1 ≤ size → size ≤ 32 → bs.length < size → bs ≠ [] →
      bs.length ≤ 6 →
      run ⟨(0x5f + size) :: bs, 0, []⟩ = .ok [.num (bytesBE bs)]) ∧
    (∀ size : ℕ, 1 ≤ size → size ≤ 32 → run ⟨[0x5f + size], 0, []⟩ = .ok [.nan]) := by
  refine ⟨fun s size => rfl, ?_, ?_⟩
  · intro size bs h1 h2 h3 h4 h5
    have hstep : step ⟨(0x5f + size) :: bs, 0, []⟩ =
        .cont ⟨(0x5f + size) :: bs, 1 + size, [.num (bytesBE bs)]⟩ := by
      simp only [step, nextInstruction, push, List.getD_cons_zero]
      rw [if_pos (show PUSH1 ≤ 0x5f + size ∧ 0x5f + size ≤ PUSH32 by
        constructor <;> simp only [PUSH1, PUSH32] <;> omega)]
      have hsz : 0x5f + size - PUSH1 + 1 = size := by
        simp only [PUSH1]
        omega
      rw [hsz]
      simp only [List.drop_succ_cons, List.drop_zero]
      rw [List.take_of_length_le (le_of_lt h3), parsePush, if_neg h4]
    rw [run]
    simp only [List.length_cons]
    rw [runLoop_step_cont (by simp) hstep,
      runLoop_of_ge (by simp only [List.length_cons]; omega)]
  · intro size h1 h2
    have hstep : step ⟨[0x5f + size], 0, []⟩ =
        .cont ⟨[0x5f + size], 1 + size, [.nan]⟩ := by
      simp only [step, nextInstruction, push, List.getD_cons_zero]
      rw [if_pos (show PUSH1 ≤ 0x5f + size ∧ 0x5f + size ≤ PUSH32 by
        constructor <;> simp only [PUSH1, PUSH32] <;> omega)]
      have hsz : 0x5f + size - PUSH1 + 1 = size := by
        simp only [PUSH1]
        omega
      rw [hsz]
      simp [parsePush]
    rw [run]
    simp only [List.length_singleton]
    rw [runLoop_step_cont (by simp) hstep,
      runLoop_of_ge (by simp only [List.length_singleton]; omega)]

/-- C5 witness: PUSH2 with a single available byte 05 pushes 5 and halts;
PUSH3 with no available bytes pushes NaN and halts; a push advances the
program counter by its size. -/
theorem c5_push_truncated_witness :
    (push ⟨[], 0, []⟩ 1).pc = 0 + 1 ∧
    run ⟨[0x61, 0x05], 0, []⟩ = .ok [.num (bytesBE [5])] ∧
    run ⟨[0x62], 0, []⟩ = .ok [.nan] := by
  refine ⟨c5_push_truncated_amended.1 ⟨[], 0, []⟩ 1, ?_, ?_⟩
  · have := c5_push_truncated_amended.2.1 2 [5] (by norm_num) (by norm_num)
      (by norm_num) (by simp) (by norm_num)
    simpa using this
  · have := c5_push_truncated_amended.2.2 3 (by norm_num) (by norm_num)
    simpa using this

/-- C6 counterexample: 0xff matches no recognized instruction, yet the
one-byte program ff halts successfully (with the empty stack), and in
ff 5f the engine skips the ff byte and goes on to execute the push:
there is no InvalidOpcode failure. -/
theorem c6_invalid_opcode_counterexample :
    run ⟨[0xff], 0, []⟩ = .ok [] ∧ run ⟨[0xff, 0x5f], 0, []⟩ = .ok [.num 0] := by
  constructor <;>
    norm_num [run, runLoop, step, nextInstruction, push, parsePush, bytesBE,
      bindStack, PUSH0, PUSH1, PUSH32, POP, ADD, MUL, SUB, DIV, MOD, LT, GT, EQ]

/-- C6 amended: a byte matching no recognized instruction is silently
skipped: the loop iteration leaves the state unchanged apart from
advancing the program counter past the byte, and execution continues. -/
theorem c6_invalid_opcode_amended :
    ∀ s : State, ¬ recognizedOp (s.code.getD s.pc 0) →
      step s = .cont { s with pc := s.pc + 1 } :=
  fun _ h => step_skip h

/-- C6 witness: the skip applied to the byte 0xff at position 0. -/
theorem c6_invalid_opcode_witness :
    step ⟨[0xff], 0, []⟩ = .cont ⟨[0xff], 1, []⟩ := by
  have := c6_invalid_opcode_amended ⟨[0xff], 0, []⟩ (by decide)
  simpa using this

/-- C7 counterexample: on a stack already holding 1024 elements the PUSH0
program 5f succeeds and grows the stack to depth 1025 instead of failing
with a StackOverflow. -/
theorem c7_no_stack_overflow_counterexample :
    run ⟨[0x5f], 0, List.replicate 1024 (.num 0)⟩ =
      .ok (JSVal.num 0 :: List.replicate 1024 (.num 0)) ∧
    (JSVal.num 0 :: List.replicate 1024 (JSVal.num 0)).length = 1025 := by
  constructor
  · rw [run]
    norm_num [runLoop, step, nextInstruction,
      bindStack, PUSH0, PUSH1, PUSH32, POP, ADD, MUL, SUB, DIV, MOD, LT, GT, EQ]
  · rw [List.length_cons, List.length_replicate]

/-- C7 amended: the implementation imposes no maximum stack depth: the push
method always succeeds and grows the stack by one, and the PUSH0 opcode
likewise pushes unconditionally; there is no StackOverflow failure kind. -/
theorem c7_push_never_fails_amended :
    (∀ (s : State) (size : ℕ), (push s size).stack.length = s.stack.length + 1) ∧
    (∀ s : State, s.code.getD s.pc 0 = PUSH0 →
      step s = .cont { s with pc := s.pc + 1, stack := .num 0 :: s.stack }) := by
  refine ⟨?_, fun s h => step_push0 h⟩
  intro s size
  simp [push]

/-- C7 witness: a push on the empty stack grows it to depth 1, and PUSH0
dispatches to an unconditional push. -/
theorem c7_push_never_fails_witness :
    (push ⟨[], 0, []⟩ 2).stack.length = 0 + 1 ∧
    step ⟨[0x5f], 0, []⟩ = .cont ⟨[0x5f], 1, [.num 0]⟩ := by
  refine ⟨c7_push_never_fails_amended.1 ⟨[], 0, []⟩ 2, ?_⟩
  have := c7_push_never_fails_amended.2 ⟨[0x5f], 0, []⟩ rfl
  simpa using this

/-- C8: popping from an empty stack fails with the stack underflow error,
every binary method (add, mul, sub, div, mod, lt, gt, eq) fails with it
on a stack of depth below 2, and the one-byte program 50 (pop) run on an
empty stack halts with that failure. -/
theorem c8_stack_underflow :
    pop ([] : List JSVal) = .error .stackUnderflow ∧
    (∀ st : List JSVal, st.length < 2 →
      add st = .error .stackUnderflow ∧ mul st = .error .stackUnderflow ∧
      sub st = .error .stackUnderflow ∧ div st = .error .stackUnderflow ∧
      mod st = .error .stackUnderflow ∧ lt st = .error .stackUnderflow ∧
      gt st = .error .stackUnderflow ∧ eq st = .error .stackUnderflow) ∧
    run ⟨[0x50], 0, []⟩ = .error .stackUnderflow := by
  refine ⟨rfl, ?_, ?_⟩
  · intro st h
    match st with
    | [] => exact ⟨rfl, rfl, rfl, rfl, rfl, rfl, rfl, rfl⟩
    | [a] => exact ⟨rfl, rfl, rfl, rfl, rfl, rfl, rfl, rfl⟩
    | a :: b :: rest =>
      rw [List.length_cons, List.length_cons] at h
      omega
  · norm_num [run, runLoop, step, nextInstruction, push, parsePush, bytesBE,
      bindStack, pop, PUSH0, PUSH1, PUSH32, POP, ADD, MUL, SUB, DIV, MOD, LT, GT, EQ]

/-- C8 witness: underflow of add on the one-element stack and of lt on the
empty stack. -/
theorem c8_stack_underflow_witness :
    add [JSVal.num 5] = .error .stackUnderflow ∧ lt ([] : List JSVal) = .error .stackUnderflow :=
  ⟨(c8_stack_underflow.2.1 [.num 5] (by norm_num)).1,
    (c8_stack_underflow.2.1 [] (by norm_num)).2.2.2.2.2.1⟩

/-- C10: the run loop terminates on every bytecode and initial stack: a
continuing iteration keeps the code and advances the program counter by at
least 1, the loop exits with the final stack once the program counter
reaches or passes the end of the code, and the fuel bound used by run
(code length + 1) is exact: any surplus fuel gives the same outcome, so
the bounded loop coincides with the unbounded while loop. -/
theorem c10_termination :
    (∀ s s2 : State, step s = .cont s2 → s2.code = s.code ∧ s.pc + 1 ≤ s2.pc) ∧
    (∀ (fuel : ℕ) (s : State), s.code.length ≤ s.pc → runLoop (fuel + 1) s = .ok s.stack) ∧
    (∀ (code : List ℕ) (stack : List JSVal) (extra : ℕ),
      runLoop (code.length + 1 + extra) ⟨code, 0, stack⟩ = run ⟨code, 0, stack⟩) := by
  refine ⟨fun s s2 h => step_cont_inv h, fun fuel s h => runLoop_of_ge h, ?_⟩
  intro code stack extra
  rw [run]
  exact runLoop_congr (code.length + 1) ⟨code, 0, stack⟩ (code.length + 1 + extra)
    (code.length + 1) (by show code.length - 0 < code.length + 1; omega) (by omega) (by omega)

/-- C10 witness: a continuing step on PUSH0, loop exit past the end of the
code, and fuel irrelevance on the program 50. -/
theorem c10_termination_witness :
    ((⟨[0x5f], 1, [JSVal.num 0]⟩ : State).code = (⟨[0x5f], 0, []⟩ : State).code ∧
      (⟨[0x5f], 0, []⟩ : State).pc + 1 ≤ (⟨[0x5f], 1, [JSVal.num 0]⟩ : State).pc) ∧
    runLoop (0 + 1) ⟨[], 5, []⟩ = .ok [] ∧
    runLoop (([0x50] : List ℕ).length + 1 + 7) ⟨[0x50], 0, []⟩ = run ⟨[0x50], 0, []⟩ := by
  refine ⟨c10_termination.1 ⟨[0x5f], 0, []⟩ ⟨[0x5f], 1, [JSVal.num 0]⟩ ?_,
    c10_termination.2.1 0 ⟨[], 5, []⟩ (by norm_num), c10_termination.2.2 [0x50] [] 7⟩
  have := step_push0 (s := ⟨[0x5f], 0, []⟩) rfl
  simpa using this

end MiniEVM
